import Mathlib

/-!
Verification of the column-grouping, section-extraction and row-selection
logic of `survey123_to_pdf.py`.

The Python script is embedded shallowly:

* strings are Lean `String`s (lists of characters); the ASCII fragments of
  Python's `str.strip`, `str.lower`, `int()` and the regex classes
  `\w`, `\s`, `\d` are modelled explicitly;
* a pandas row (`pd.Series`) is an association list from column label to an
  optional cell value, `none` standing for a missing label or a NaN cell;
* a Python `dict` (insertion ordered) is an association list; a Python `set`
  is the list of inserted elements, with `sorted(set)` modelled by a
  sort-with-deduplication function;
* fallible parsing (`int()` with `try`-`except`) returns `Option`.

Every definition in the first half of the file is translated from the source
of `survey123_to_pdf.py`; definitions whose doc comment says they follow the
specification's wording are used only to compare against the source-derived
ones.
-/

namespace Survey123

/-- ASCII whitespace, as recognised by Python's `str.strip()` and the regex
class `\s` (the source only manipulates ASCII control characters here). -/
def isPySpace (c : Char) : Bool :=
  c == ' ' || c == '\t' || c == '\n' || c == '\r' || c == '\x0b' || c == '\x0c'

/-- Python `str.strip()` on a list of characters. -/
def stripChars (l : List Char) : List Char :=
  ((l.dropWhile isPySpace).reverse.dropWhile isPySpace).reverse

/-- Python `str.strip()`. -/
def pyStrip (s : String) : String :=
  ⟨stripChars s.data⟩

/-- Value of a (big-endian) list of decimal digit characters, the way
Python's `int()` accumulates it. -/
def natOfDigits (l : List Char) : Nat :=
  l.foldl (fun a c => 10 * a + (c.toNat - 48)) 0

/-- Fuel-driven worker for `toDigitsRev`; the fuel strictly exceeds the
number being printed, which is more than enough since each step divides by
ten. -/
def toDigitsRevFuel : Nat → Nat → List Char
  | 0, _ => []
  | fuel + 1, n =>
    if n < 10 then [Char.ofNat (48 + n)]
    else Char.ofNat (48 + n % 10) :: toDigitsRevFuel fuel (n / 10)

/-- Decimal digits of a natural number, least significant first.  This models
Python's decimal formatting (`f"{i}"`, `str(i)`). -/
def toDigitsRev (n : Nat) : List Char :=
  toDigitsRevFuel (n + 1) n

/-- Decimal representation of a natural number (big-endian), modelling
Python's `f"{i}"`. -/
def natRepr (n : Nat) : List Char :=
  (toDigitsRev n).reverse

/-- Helper for `pyInt`: a digit string in the ASCII fragment of Python's
`int()` grammar — non-empty, made of decimal digits and underscores, with an
underscore only between two digits. -/
def noDoubleUnderscore : List Char → Bool
  | [] => true
  | [_] => true
  | a :: b :: rest => !(a = '_' && b = '_') && noDoubleUnderscore (b :: rest)

/-- Helper for `pyInt`: validity of the digit part. -/
def validDigits (l : List Char) : Bool :=
  !l.isEmpty
    && l.all (fun c => c.isDigit || c = '_')
    && (match l.head? with | some c => c.isDigit | none => false)
    && (match l.getLast? with | some c => c.isDigit | none => false)
    && noDoubleUnderscore l

/-- Helper for `pyInt`: value of a valid digit part. -/
def digitsValue (l : List Char) : Option Int :=
  if validDigits l then some ((natOfDigits (l.filter (fun c => c ≠ '_')) : Nat) : Int)
  else none

/-- Python `int(s)` on a string, returning `none` where the Python call
raises `ValueError` (ASCII fragment: surrounding ASCII whitespace is
stripped, an optional single sign, then digits with underscores only between
digits). -/
def pyInt (l : List Char) : Option Int :=
  match stripChars l with
  | c :: rest =>
    if c = '+' then digitsValue rest
    else if c = '-' then (digitsValue rest).map (fun v => -v)
    else digitsValue (c :: rest)
  | [] => digitsValue []

/-- Python `str.lower()` (ASCII fragment), character by character. -/
def pyLower (s : String) : String :=
  ⟨s.data.map Char.toLower⟩

/-- A cell value: `none` models a missing label or a NaN cell. -/
abbrev Cell := Option String

/-- A pandas row `pd.Series`: ordered association of column label to cell.
`row.index` is the list of first components. -/
abbrev Row := List (String × Cell)

/-- The columns of a row, in order (`row.index`). -/
def rowCols (row : Row) : List String :=
  row.map (fun p => p.1)

/-- Label lookup in an association list keyed by strings (models both
dictionary lookup and `row.get`). -/
def lookupStr {α : Type} : List (String × α) → String → Option α
  | [], _ => none
  | (k, v) :: rest, b => if k = b then some v else lookupStr rest b

/-- Python `row.get(col, None)`: `none` for a missing label or a NaN cell. -/
def rowGet (row : Row) (col : String) : Cell :=
  match lookupStr row col with
  | some v => v
  | none => none

/-- Python `col in row.index`. -/
def hasCol (row : Row) (col : String) : Bool :=
  (lookupStr row col).isSome

/-- Python `str(val)` on a cell (only reached on non-empty cells in the
source, but modelled totally: `str(None) = "None"`). -/
def pyStr (v : Cell) : String :=
  match v with
  | some s => s
  | none => "None"

/-- Source `is_empty(val)`: true if a cell is absent, or its stripped string
form is empty or a lowercase null token. -/
def is_empty (val : Cell) : Bool :=
  match val with
  | none => true
  | some v =>
    let s := pyStrip v
    s = "" || ["nan", "none", "null"].contains (pyLower s)

/-- Character-level core of `base_and_index` on the stripped label: the
regex `^(.*?)(?:\.(\d+))?$` strips the last dot-digits suffix exactly when
the whole tail after the last dot is a non-empty run of digits; the captured
base is stripped again (`m.group(1).strip()`). -/
def baseIndexCore (s : List Char) : List Char × Nat :=
  let r := s.reverse
  let ds := r.takeWhile Char.isDigit
  if ds.isEmpty = false ∧ (r.drop ds.length).head? = some '.' then
    (stripChars (r.drop (ds.length + 1)).reverse, natOfDigits ds.reverse)
  else
    (s, 0)

/-- Source `base_and_index(col)`: split a pandas-mangled duplicate column
name into (base, index), e.g. "Question" to ("Question", 0) and "Question.1"
to ("Question", 1). -/
def base_and_index (col : String) : String × Nat :=
  let p := baseIndexCore (stripChars col.data)
  (⟨p.1⟩, p.2)

/-- Source constant `DATA_QUALITY_QUESTIONS`: the fixed trailing questions,
in their fixed order. -/
def DATA_QUALITY_QUESTIONS : List String :=
  [ "Are you aware of special collection methods or theories used in collecting the original data?",
    "What were the goals during the collection of the original data?",
    "Is there an apparent piece of context missing from this data collection that would help to better analyze it?",
    "Was there specific equipment or machinery used for collecting this data?",
    "Are there any critical contextual papers necessary for the interpretation of this data collection?",
    "Are there any other potential causes of errors obvious for this data collection?",
    "Does the absence of data in certain areas reflect a true absence, or could it be due to factors such as collection methods, material degradation, or other biases?",
    "Are there other data that are missing from the data set that would benefit these data?",
    "Are there any specific kinds of technologies or programs that were used to analyze, modify, or manage these data?" ]

/-- Source constant `FILE_SECTION_SEPARATOR`. -/
def FILE_SECTION_SEPARATOR : String :=
  "Do you have additional files to add?"

/-- Source constant `FILE_QUESTION_BASES` (a Python set, modelled as the
list of its members; only membership is used). -/
def FILE_QUESTION_BASES : List String :=
  [ "Please provide a title that clearly describes your file.",
    "Please provide up to 4 keywords to describe this file.",
    "Please provide a detailed description of the file as a whole.",
    "Please define each field or column in your file (e.g. column in a csv, layer in a NetCDF)",
    "How would you describe the overall nature of the data?",
    "Please provide a comment explaining your choice regarding data nature",
    "Modifications",
    "Please list any citations or references that provide context for the methodologies used in collecting or processing this data.",
    "Please provide details on the model and any experiment-specific configuration:",
    "Please submit here links to any external descriptions, code, or documentation relevant to this file.",
    "Dependencies" ]

/-- The set `dq_bases = {q.strip() for q in DATA_QUALITY_QUESTIONS}` built
inside `extract_file_sections` and `build_pdf_for_row`. -/
def dqBases : List String :=
  DATA_QUALITY_QUESTIONS.map pyStrip

/-- The `for col in row.index` loop of `extract_file_sections`: `current` is
the open block accumulator, `acc` the list of closed blocks.  A base in the
trailing data-quality set triggers the Python `break` (followed by the
post-loop close of `current`, which is empty at that point, so returning
`acc` after closing is faithful); the separator and any non-file base close
the current block; file-question bases are appended to it. -/
def extractScan (cols : List String) (current : List (String × String))
    (acc : List (List (String × String))) : List (List (String × String)) :=
  match cols with
  | [] => acc ++ (if current.isEmpty then [] else [current])
  | c :: rest =>
    let base := pyStrip (base_and_index c).1
    if dqBases.contains base then
      acc ++ (if current.isEmpty then [] else [current])
    else if base = FILE_SECTION_SEPARATOR then
      extractScan rest [] (acc ++ (if current.isEmpty then [] else [current]))
    else if FILE_QUESTION_BASES.contains base then
      extractScan rest (current ++ [(base, c)]) acc
    else
      extractScan rest [] (acc ++ (if current.isEmpty then [] else [current]))

/-- The post-processing loop of `extract_file_sections`: keep only pairs
whose row value is non-empty, drop blocks that become empty. -/
def filterSections (row : Row) (sections : List (List (String × String))) :
    List (List (String × String)) :=
  sections.foldl
    (fun fs block =>
      let qa := block.foldl
        (fun qa p =>
          let val := rowGet row p.2
          if is_empty val = false then qa ++ [(p.1, pyStr val)] else qa)
        []
      if qa.isEmpty then fs else fs ++ [qa])
    []

/-- Source `extract_file_sections(row)`: ordered blocks of (question, answer)
pairs for the file-related repeats. -/
def extract_file_sections (row : Row) : List (List (String × String)) :=
  filterSections row (extractScan (rowCols row) [] [])

/-- Insertion of one decomposed column into the insertion-ordered group map,
modelling `groups.setdefault(base, []).append((idx, c))`. -/
def addToGroups (gs : List (String × List (Nat × String))) (b : String)
    (p : Nat × String) : List (String × List (Nat × String)) :=
  match gs with
  | [] => [(b, [p])]
  | (k, l) :: rest => if k = b then (k, l ++ [p]) :: rest else (k, l) :: addToGroups rest b p

/-- The first loop of `detect_groups`: fold the columns into the
insertion-ordered map and track the maximal index seen. -/
def rawGroups (cols : List String) : List (String × List (Nat × String)) × Nat :=
  cols.foldl
    (fun s c =>
      let bi := base_and_index c
      (addToGroups s.1 bi.1 (bi.2, c), if bi.2 > s.2 then bi.2 else s.2))
    ([], 0)

/-- Stable insertion of a pair into a list sorted by index: the new pair goes
before the first entry with an index not smaller than its own, so entries
with equal indices keep their original relative order. -/
def insertByIdx (p : Nat × String) : List (Nat × String) → List (Nat × String)
  | [] => [p]
  | q :: qs => if p.1 ≤ q.1 then p :: q :: qs else q :: insertByIdx p qs

/-- Stable sort by index, modelling Python's stable `sorted(key=lambda t: t[0])`
(any stable sort produces the same list). -/
def sortByIdx : List (Nat × String) → List (Nat × String)
  | [] => []
  | p :: ps => insertByIdx p (sortByIdx ps)

/-- Source `detect_groups(columns)`: the insertion-ordered per-base groups,
each sorted by index, together with the maximal index seen. -/
def detect_groups (cols : List String) : List (String × List (Nat × String)) × Nat :=
  let s := rawGroups cols
  (s.1.map (fun g => (g.1, sortByIdx g.2)), s.2)

/-- Source `first_value_for_base(row, groups, base, idx)`: scan the base's
group for the first entry carrying `idx` (the Python loop breaks after it
whether or not the value is empty), then fall back to a direct label
lookup. -/
def first_value_for_base (row : Row) (groups : List (String × List (Nat × String)))
    (base : String) (idx : Nat := 0) : Cell :=
  let fallback : Cell :=
    if hasCol row base && is_empty (rowGet row base) = false then rowGet row base
    else none
  match lookupStr groups base with
  | some l =>
    match l.find? (fun p => p.1 == idx) with
    | some hit =>
      let val := rowGet row hit.2
      if is_empty val = false then val else fallback
    | none => fallback
  | none => fallback

/-- The `base_order` loop of `build_pdf_for_row`: base names in row-column
order, first occurrence only (`seen` is the set accumulator). -/
def baseOrderGo : List String → List String → List String
  | [], _ => []
  | c :: rest, seen =>
    let b := (base_and_index c).1
    if seen.contains b then baseOrderGo rest seen
    else b :: baseOrderGo rest (b :: seen)

/-- Base names of a column list in original order, without repetitions. -/
def base_order (cols : List String) : List String :=
  baseOrderGo cols []

/-- The `default_excl` set of `build_pdf_for_row` (a Python set union,
modelled as the concatenation of its member lists; only membership is
used). -/
def defaultExclusions : List String :=
  [ "ObjectID", "GlobalID", "CreationDate", "EditDate",
    "Creator", "Editor", "Owner", "Metadata Owner",
    "Title of Tier I Data Submitted", "Data Pillar",
    "x", "y" ] ++ dqBases ++ FILE_QUESTION_BASES ++ [FILE_SECTION_SEPARATOR]

/-- The `general_items` loop of `build_pdf_for_row`: non-excluded bases whose
group has exactly one entry and whose single column holds a non-empty
value. -/
def general_items (row : Row) (groups : List (String × List (Nat × String))) :
    List (String × String) :=
  (base_order (rowCols row)).foldl
    (fun acc base =>
      if defaultExclusions.contains base then acc
      else
        match (lookupStr groups base).getD [] with
        | [(_, c0)] =>
          let val := rowGet row c0
          if is_empty val = false then acc ++ [(base, pyStr val)] else acc
        | _ => acc)
    []

/-- The `dq_items` loop of `build_pdf_for_row`: every fixed data-quality
question paired with its resolved value, or the placeholder when empty. -/
def dq_items (row : Row) (groups : List (String × List (Nat × String))) :
    List (String × String) :=
  DATA_QUALITY_QUESTIONS.foldl
    (fun acc question =>
      let base := pyStrip question
      let val := first_value_for_base row groups base
      let answer := if is_empty val then "No response provided." else pyStr val
      acc ++ [(question, answer)])
    []

/-- The `meta_items` block of `build_pdf_for_row`: Metadata Owner and Data
Pillar, each only when non-empty. -/
def metaItems (row : Row) (groups : List (String × List (Nat × String))) :
    List (String × String) :=
  let mo := first_value_for_base row groups "Metadata Owner"
  let dp := first_value_for_base row groups "Data Pillar"
  (if is_empty mo = false then [("Metadata Owner", pyStr mo)] else []) ++
    (if is_empty dp = false then [("Data Pillar", pyStr dp)] else [])

/-- Python truthiness of an optional string (None and the empty string are
falsy). -/
def pyTruthyOpt : Option String → Bool
  | none => false
  | some s => s ≠ ""

/-- The inner `colname` search of the heading loop: first group entry of the
base carrying index 0. -/
def findIdx0 (groups : List (String × List (Nat × String))) (base : String) :
    Option String :=
  match lookupStr groups base with
  | some l =>
    match l.find? (fun p => p.1 == 0) with
    | some hit => some hit.2
    | none => none
  | none => none

/-- One iteration of the heading candidate loop of `build_pdf_for_row`:
resolve the candidate to a column, and produce the heading when its value is
non-empty. -/
def headingCandidate (row : Row) (groups : List (String × List (Nat × String)))
    (c : String) : Option String :=
  if c = "" then none
  else
    let base := (base_and_index c).1
    let colname0 := findIdx0 groups base
    let colname := if pyTruthyOpt colname0 = false && hasCol row c then some c else colname0
    match colname with
    | some cn =>
      if cn ≠ "" && is_empty (rowGet row cn) = false then
        some (if base = "Title of Tier I Data Submitted" then pyStr (rowGet row cn)
              else base ++ ": " ++ pyStr (rowGet row cn))
      else none
    | none => none

/-- The heading derivation of `build_pdf_for_row`: first successful candidate
among Title, Title of Tier I Data Submitted, GlobalID, with the
`Submission <row.name>` fallback. -/
def headingFor (row : Row) (groups : List (String × List (Nat × String)))
    (rowName : Nat) : String :=
  let pick := ["Title", "Title of Tier I Data Submitted", "GlobalID"].foldl
    (fun (acc : Option String) c =>
      match acc with
      | some _ => acc
      | none => headingCandidate row groups c)
    none
  match pick with
  | some h => h
  | none => "Submission " ++ (⟨natRepr rowName⟩ : String)

/-- The semantic content of the document `build_pdf_for_row` renders: its
heading (also used as the PDF title), the metadata block, the file blocks,
the general items and the data-quality items, in render order. -/
structure DocModel where
  heading : String
  meta : List (String × String)
  files : List (List (String × String))
  general : List (String × String)
  dataQuality : List (String × String)
  deriving DecidableEq

/-- Source `build_pdf_for_row(row, groups, ...)`, restricted to the content
it lays out (`rowName` is `row.name`, the row's index label). -/
def build_pdf_for_row (row : Row) (groups : List (String × List (Nat × String)))
    (rowName : Nat) : DocModel :=
  { heading := headingFor row groups rowName
    meta := metaItems row groups
    files := extract_file_sections row
    general := general_items row groups
    dataQuality := dq_items row groups }

/-- Python `expr.split(sep)` for a one-character separator (no collapsing of
adjacent separators, `"".split(sep) = [""]`). -/
def splitChar (sep : Char) : List Char → List (List Char)
  | [] => [[]]
  | c :: cs =>
    if c = sep then [] :: splitChar sep cs
    else
      match splitChar sep cs with
      | t :: ts => (c :: t) :: ts
      | [] => [[c]]

/-- Python `range(s, e + 1)` over integers. -/
def rangeInt (s e : Int) : List Int :=
  (List.range (e + 1 - s).toNat).map (fun k => s + k)

/-- The body of the `parse_row_ranges` loop for one comma-separated token:
the row indices it contributes to the result set.  A blank token is skipped;
a token with a dash is split once, both halves parsed as integers (a failure
skips the token), swapped when reversed, and the inclusive range filtered to
`[0, maxIndex]`; otherwise the token is a single integer kept when in
bounds. -/
def tokenIndices (maxIndex : Int) (tok : List Char) : List Int :=
  let part := stripChars tok
  if part.isEmpty then []
  else if part.contains '-' then
    let a := part.takeWhile (fun c => c ≠ '-')
    let b := (part.dropWhile (fun c => c ≠ '-')).drop 1
    match pyInt a, pyInt b with
    | some s, some e =>
      let se := if s > e then (e, s) else (s, e)
      (rangeInt se.1 se.2).filter (fun i => decide (0 ≤ i) && decide (i ≤ maxIndex))
    | _, _ => []
  else
    match pyInt part with
    | some i => if 0 ≤ i ∧ i ≤ maxIndex then [i] else []
    | none => []

/-- Insertion into a strictly sorted list that drops duplicates. -/
def insSortedDedup (x : Int) : List Int → List Int
  | [] => [x]
  | y :: ys =>
    if x < y then x :: y :: ys
    else if x = y then y :: ys
    else y :: insSortedDedup x ys

/-- Python `sorted(s)` for a set `s` given as the list of elements added to
it: the strictly increasing enumeration of the distinct elements. -/
def sortedDedup (l : List Int) : List Int :=
  l.foldl (fun acc x => insSortedDedup x acc) []

/-- Source `parse_row_ranges(expr, max_index)` on the character list of the
expression: the `result` set collects every index contributed by some token,
and `sorted(result)` is returned. -/
def parseRowRangesCore (l : List Char) (maxIndex : Int) : List Int :=
  sortedDedup (((splitChar ',' l).map (tokenIndices maxIndex)).flatten)

/-- Source `parse_row_ranges(expr, max_index)`. -/
def parse_row_ranges (expr : String) (maxIndex : Int) : List Int :=
  parseRowRangesCore expr.data maxIndex

/-- ASCII fragment of the regex class `\w` used by `slugify`. -/
def isWordChar (c : Char) : Bool :=
  c.isAlphanum || c = '_'

/-- Characters the `slugify` substitution `[^\w\s\-\.]+ -> ""` keeps. -/
def slugAllowed (c : Char) : Bool :=
  isWordChar c || isPySpace c || c = '-' || c = '.'

/-- Worker for `collapseWs`: the flag records whether the previous character
was whitespace (in which case the current run already emitted its
underscore). -/
def collapseWsGo : Bool → List Char → List Char
  | _, [] => []
  | prevSpace, c :: cs =>
    if isPySpace c then
      (if prevSpace then [] else ['_']) ++ collapseWsGo true cs
    else c :: collapseWsGo false cs

/-- The substitution `\s+ -> "_"` of `slugify`: every maximal run of
whitespace becomes a single underscore. -/
def collapseWs (l : List Char) : List Char :=
  collapseWsGo false l

/-- Source `slugify(text, max_len)`: strip, remove disallowed characters,
collapse whitespace runs to underscores, truncate, and fall back to the
constant string when empty. -/
def slugify (text : String) (max_len : Nat := 80) : String :=
  let t := stripChars text.data
  let t := t.filter slugAllowed
  let t := collapseWs t
  let t := t.take max_len
  if t.isEmpty then "row" else ⟨t⟩

/-- The f-string `f"row_{i}"`: the characters r, o, w, _ followed by the
decimal digits of the row index. -/
def rowLabel (i : Nat) : String :=
  ⟨'r' :: 'o' :: 'w' :: '_' :: natRepr i⟩

/-- The output-name derivation of `main` (source lines 558-559): slugify the
title value when it is truthy, else slugify the row label, then re-apply the
row-label fallback should the slug be falsy. -/
def outputName (i : Nat) (title_val : Option String) : String :=
  let arg :=
    match title_val with
    | some t => if t = "" then rowLabel i else t
    | none => rowLabel i
  let slug := slugify arg 80
  if slug = "" then rowLabel i else slug

/-! Spec-side definitions.  Each definition below follows the wording of the
specification for one claim and exists only to be compared with the
source-derived definition above. -/

/-- Whether a character list ends in a dot immediately followed by a
non-empty run of digits reaching the end — the condition under which the
decomposition strips a suffix. -/
def endsWithDotDigitsL (s : List Char) : Bool :=
  let r := s.reverse
  let ds := r.takeWhile Char.isDigit
  !ds.isEmpty && ((r.drop ds.length).head? == some '.')

/-- String form of `endsWithDotDigitsL`. -/
def endsWithDotDigits (s : String) : Bool :=
  endsWithDotDigitsL s.data

/-- The suffix convention read backwards: the column label carrying a
(base, index) pair — the bare base for index 0, the base plus a dot-integer
suffix otherwise. -/
def composeLabel (p : String × Nat) : String :=
  if p.2 = 0 then p.1 else ⟨p.1.data ++ '.' :: natRepr p.2⟩

/-- Side condition of the round-trip: the base carries no surrounding
whitespace, and a base used at index 0 does not itself end in a dot-integer
suffix. -/
def goodPairB (p : String × Nat) : Bool :=
  (pyStrip p.1 == p.1) && (p.2 != 0 || !endsWithDotDigits p.1)

/-- The columns of the input decomposing to a given base, in input order,
paired with their indices — the insertion order the specification's grouping
clause talks about. -/
def insertionList (cols : List String) (b : String) : List (Nat × String) :=
  cols.filterMap (fun c =>
    let bi := base_and_index c
    if bi.1 = b then some (bi.2, c) else none)

/-- State of the specification's section-extraction scan: whether a trailing
question stopped the scan, the open block, and the blocks closed so far. -/
structure ScanState where
  stopped : Bool
  current : List (String × String)
  closed : List (List (String × String))

/-- One step of the specification's scan (§4.3 of the spec): trailing
questions close and stop, the separator closes and continues, repeatable
bases accumulate, anything else closes. -/
def specStep (st : ScanState) (c : String) : ScanState :=
  if st.stopped then st
  else
    let base := pyStrip (base_and_index c).1
    if dqBases.contains base then
      ⟨true, [], st.closed ++ (if st.current.isEmpty then [] else [st.current])⟩
    else if base = FILE_SECTION_SEPARATOR then
      ⟨false, [], st.closed ++ (if st.current.isEmpty then [] else [st.current])⟩
    else if FILE_QUESTION_BASES.contains base then
      ⟨st.stopped, st.current ++ [(base, c)], st.closed⟩
    else
      ⟨false, [], st.closed ++ (if st.current.isEmpty then [] else [st.current])⟩

/-- The non-empty (question, answer) pairs of a raw block, per the
specification's post-processing clause. -/
def specBlockItems (row : Row) (block : List (String × String)) :
    List (String × String) :=
  block.filterMap (fun p =>
    let val := rowGet row p.2
    if is_empty val = false then some (p.1, pyStr val) else none)

/-- Section extraction stated the way the specification words it: a single
left-to-right scan with a block accumulator, closing the still-open block
after the scan, then dropping empty pairs and empty blocks while keeping the
closing order. -/
def extractSectionsSpec (row : Row) : List (List (String × String)) :=
  let final := (rowCols row).foldl specStep ⟨false, [], []⟩
  let blocks := final.closed ++ (if final.current.isEmpty then [] else [final.current])
  (blocks.map (specBlockItems row)).filter (fun qa => qa.isEmpty = false)

/-- The optional general item of one base, per the specification's wording:
present exactly when the base is not excluded, its group has exactly one
entry, and that entry's value in the row is non-empty. -/
def generalItemSpecFn (row : Row) (groups : List (String × List (Nat × String)))
    (base : String) : Option (String × String) :=
  if defaultExclusions.contains base then none
  else
    match (lookupStr groups base).getD [] with
    | [(_, c0)] =>
      let val := rowGet row c0
      if is_empty val = false then some (base, pyStr val) else none
    | _ => none

/-- General items stated the way the specification words them: the bases in
row-column order whose group has exactly one entry, are not excluded, and
whose single column holds a non-empty value. -/
def generalItemsSpec (row : Row) (groups : List (String × List (Nat × String))) :
    List (String × String) :=
  (base_order (rowCols row)).filterMap (generalItemSpecFn row groups)

/-- The data-quality answer the specification describes: the resolved first
non-empty value for the question's base when one exists, otherwise the
placeholder. -/
def dqAnswerSpec (row : Row) (groups : List (String × List (Nat × String)))
    (question : String) : String :=
  match first_value_for_base row groups (pyStrip question) with
  | some v => v
  | none => "No response provided."

/-- A comma-separated token `parse_row_ranges` silently skips: blank, a dash
token one of whose halves fails integer parsing, or a dashless token failing
integer parsing. -/
def malformedToken (tok : List Char) : Bool :=
  let part := stripChars tok
  part.isEmpty ||
    (if part.contains '-' then
      (pyInt (part.takeWhile (fun c => c ≠ '-'))).isNone
        || (pyInt ((part.dropWhile (fun c => c ≠ '-')).drop 1)).isNone
     else (pyInt part).isNone)

/-- The normalisation pipeline of the output-name derivation as the
specification words it: strip, remove disallowed characters, collapse
whitespace runs, truncate — without any fallback. -/
def normalizeTitle (t : String) : String :=
  ⟨(collapseWs ((stripChars t.data).filter slugAllowed)).take 80⟩

/-- The end-to-end scenario row of the specification: columns Title,
Question, Question.1, Answer, Answer.1 with values
["Doc A", "Q1", "Q1b", "A1", ""]. -/
def exampleRowC1 : Row :=
  [ ("Title", some "Doc A"), ("Question", some "Q1"), ("Question.1", some "Q1b"),
    ("Answer", some "A1"), ("Answer.1", some "") ]

/-- The groups the driver derives for the scenario row's header. -/
def exampleGroupsC1 : List (String × List (Nat × String)) :=
  (detect_groups (rowCols exampleRowC1)).1

/-! Lemma layer: facts about the character-level helpers. -/

theorem dropWhile_eq_self_of_none {p : Char → Bool} {l : List Char}
    (h : ∀ c ∈ l, p c = false) : l.dropWhile p = l := by
  cases l with
  | nil => rfl
  | cons c cs => simp [List.dropWhile_cons, h c (List.mem_cons_self c cs)]

theorem length_dropWhile_le (p : Char → Bool) (l : List Char) :
    (l.dropWhile p).length ≤ l.length := by
  induction l with
  | nil => simp
  | cons c cs ih =>
    by_cases h : p c = true
    · simp only [List.dropWhile_cons, h, if_true]
      exact Nat.le_succ_of_le ih
    · simp [List.dropWhile_cons, h]

theorem dropWhile_eq_self_of_length {p : Char → Bool} {l : List Char}
    (h : (l.dropWhile p).length = l.length) : l.dropWhile p = l := by
  cases l with
  | nil => rfl
  | cons c cs =>
    by_cases hc : p c = true
    · exfalso
      have hle := length_dropWhile_le p cs
      simp only [List.dropWhile_cons, hc, if_true] at h
      simp only [List.length_cons] at h
      omega
    · simp [List.dropWhile_cons, hc]

theorem stripChars_eq_self_of_none {l : List Char}
    (h : ∀ c ∈ l, isPySpace c = false) : stripChars l = l := by
  unfold stripChars
  rw [dropWhile_eq_self_of_none h]
  rw [dropWhile_eq_self_of_none (fun c hc => h c (List.mem_reverse.mp hc))]
  exact List.reverse_reverse l

theorem dropWhile_eq_self_of_stripChars {l : List Char}
    (h : stripChars l = l) : l.dropWhile isPySpace = l := by
  have h1 : (stripChars l).length = l.length := by rw [h]
  unfold stripChars at h1
  simp only [List.length_reverse] at h1
  have h2 := length_dropWhile_le isPySpace ((l.dropWhile isPySpace).reverse)
  simp only [List.length_reverse] at h2
  have h3 := length_dropWhile_le isPySpace l
  exact dropWhile_eq_self_of_length (by omega)

theorem stripChars_append_right {l₁ l₂ : List Char}
    (h₂ : ∀ c ∈ l₂, isPySpace c = false) (hne : l₂ ≠ []) :
    stripChars (l₁ ++ l₂) = l₁.dropWhile isPySpace ++ l₂ := by
  unfold stripChars
  rw [List.dropWhile_append]
  by_cases h : (l₁.dropWhile isPySpace).isEmpty
  · rw [if_pos h]
    rw [dropWhile_eq_self_of_none h₂]
    rw [dropWhile_eq_self_of_none (fun c hc => h₂ c (List.mem_reverse.mp hc))]
    rw [List.reverse_reverse]
    rw [List.isEmpty_iff.mp h]
    rfl
  · rw [if_neg h]
    rw [List.reverse_append]
    cases hl₂ : l₂.reverse with
    | nil => exact absurd (by simpa using congrArg List.reverse hl₂) hne
    | cons c cs =>
      have hc : isPySpace c = false := by
        have : c ∈ l₂.reverse := by rw [hl₂]; exact List.mem_cons_self c cs
        exact h₂ c (List.mem_reverse.mp this)
      have hl₂' : l₂ = cs.reverse ++ [c] := by
        rw [← List.reverse_reverse l₂, hl₂, List.reverse_cons]
      rw [List.cons_append, List.dropWhile_cons, hc]
      simp only [Bool.false_eq_true, if_false, List.reverse_cons, List.reverse_append,
        List.reverse_reverse]
      rw [hl₂', List.append_assoc]

theorem isDigit_not_pySpace {c : Char} (h : c.isDigit = true) : isPySpace c = false := by
  cases hc : isPySpace c with
  | false => rfl
  | true =>
    exfalso
    unfold isPySpace at hc
    simp only [Bool.or_eq_true, beq_iff_eq] at hc
    rcases hc with ((((h1 | h1) | h1) | h1) | h1) | h1 <;> subst h1 <;> simp at h

theorem isDigit_ne_special {c : Char} (h : c.isDigit = true) :
    c ≠ '.' ∧ c ≠ '-' ∧ c ≠ ',' ∧ c ≠ '_' ∧ c ≠ '+' := by
  refine ⟨?_, ?_, ?_, ?_, ?_⟩ <;> intro heq <;> subst heq <;> simp at h

theorem digitChar_spec (d : Nat) (h : d < 10) :
    (Char.ofNat (48 + d)).isDigit = true ∧ (Char.ofNat (48 + d)).toNat = 48 + d := by
  interval_cases d <;> exact ⟨by decide, by decide⟩

theorem toDigitsRevFuel_ne_nil : ∀ (fuel n : Nat), n < fuel →
    toDigitsRevFuel fuel n ≠ [] := by
  intro fuel
  induction fuel with
  | zero => intro n h; omega
  | succ fuel _ =>
    intro n _
    unfold toDigitsRevFuel
    by_cases h10 : n < 10 <;> simp [h10]

theorem toDigitsRev_ne_nil (n : Nat) : toDigitsRev n ≠ [] :=
  toDigitsRevFuel_ne_nil (n + 1) n (Nat.lt_succ_self n)

theorem toDigitsRevFuel_digits : ∀ (fuel n : Nat), n < fuel →
    ∀ c ∈ toDigitsRevFuel fuel n, c.isDigit = true := by
  intro fuel
  induction fuel with
  | zero => intro n h; omega
  | succ fuel ih =>
    intro n hn
    unfold toDigitsRevFuel
    by_cases h10 : n < 10
    · simp only [h10, if_true, List.mem_singleton]
      rintro c rfl
      exact (digitChar_spec n h10).1
    · simp only [h10, if_false, List.mem_cons]
      rintro c (rfl | hc)
      · exact (digitChar_spec (n % 10) (Nat.mod_lt n (by omega))).1
      · exact ih (n / 10) (by omega) c hc

theorem toDigitsRev_digits (n : Nat) : ∀ c ∈ toDigitsRev n, c.isDigit = true :=
  toDigitsRevFuel_digits (n + 1) n (Nat.lt_succ_self n)

theorem natRepr_digits (n : Nat) : ∀ c ∈ natRepr n, c.isDigit = true := by
  intro c hc
  exact toDigitsRev_digits n c (List.mem_reverse.mp hc)

theorem natRepr_ne_nil (n : Nat) : natRepr n ≠ [] := by
  unfold natRepr
  simp only [ne_eq, List.reverse_eq_nil_iff]
  exact toDigitsRev_ne_nil n

theorem natOfDigits_append_singleton (l : List Char) (c : Char) :
    natOfDigits (l ++ [c]) = 10 * natOfDigits l + (c.toNat - 48) := by
  simp [natOfDigits, List.foldl_append]

theorem natOfDigits_toDigitsRevFuel : ∀ (fuel n : Nat), n < fuel →
    natOfDigits (toDigitsRevFuel fuel n).reverse = n := by
  intro fuel
  induction fuel with
  | zero => intro n h; omega
  | succ fuel ih =>
    intro n hn
    unfold toDigitsRevFuel
    by_cases h10 : n < 10
    · simp only [h10, if_true, List.reverse_singleton]
      have := (digitChar_spec n h10).2
      simp [natOfDigits, this]
    · simp only [h10, if_false, List.reverse_cons]
      rw [natOfDigits_append_singleton]
      rw [ih (n / 10) (by omega)]
      have := (digitChar_spec (n % 10) (Nat.mod_lt n (by omega))).2
      rw [this]
      omega

theorem natOfDigits_natRepr (n : Nat) : natOfDigits (natRepr n) = n :=
  natOfDigits_toDigitsRevFuel (n + 1) n (Nat.lt_succ_self n)

theorem noDoubleUnderscore_of_digits {l : List Char}
    (h : ∀ c ∈ l, c.isDigit = true) : noDoubleUnderscore l = true := by
  induction l with
  | nil => rfl
  | cons a t ih =>
    cases t with
    | nil => rfl
    | cons b t' =>
      unfold noDoubleUnderscore
      have ha : a ≠ '_' := (isDigit_ne_special (h a (by simp))).2.2.2.1
      have hrec := ih (fun c hc => h c (List.mem_cons_of_mem a hc))
      simp only [Bool.and_eq_true, Bool.not_eq_true']
      constructor
      · simp [ha]
      · exact hrec

theorem validDigits_of_digits {l : List Char} (hne : l ≠ [])
    (h : ∀ c ∈ l, c.isDigit = true) : validDigits l = true := by
  unfold validDigits
  simp only [Bool.and_eq_true, Bool.not_eq_true']
  refine ⟨⟨⟨⟨by simpa using hne, ?_⟩, ?_⟩, ?_⟩, noDoubleUnderscore_of_digits h⟩
  · rw [List.all_eq_true]
    intro c hc
    simp [h c hc]
  · cases l with
    | nil => exact absurd rfl hne
    | cons c cs => simpa using h c (by simp)
  · cases hl : l.getLast? with
    | none => exact absurd (List.getLast?_eq_none_iff.mp hl) hne
    | some c => exact h c (List.mem_of_getLast?_eq_some hl)

theorem digitsValue_of_digits {l : List Char} (hne : l ≠ [])
    (h : ∀ c ∈ l, c.isDigit = true) :
    digitsValue l = some ((natOfDigits l : Nat) : Int) := by
  unfold digitsValue
  rw [if_pos (validDigits_of_digits hne h)]
  have hf : List.filter (fun c => decide (c ≠ '_')) l = l := by
    apply List.filter_eq_self.mpr
    intro c hc
    simp [(isDigit_ne_special (h c hc)).2.2.2.1]
  rw [hf]

theorem pyInt_digits {l : List Char} (hne : l ≠ [])
    (h : ∀ c ∈ l, c.isDigit = true) :
    pyInt l = some ((natOfDigits l : Nat) : Int) := by
  have hstrip : stripChars l = l :=
    stripChars_eq_self_of_none (fun c hc => isDigit_not_pySpace (h c hc))
  cases l with
  | nil => exact absurd rfl hne
  | cons c cs =>
    have hc := isDigit_ne_special (h c (by simp))
    unfold pyInt
    rw [hstrip]
    show (if c = '+' then digitsValue cs
          else if c = '-' then (digitsValue cs).map (fun v => -v)
          else digitsValue (c :: cs)) = some ((natOfDigits (c :: cs) : Nat) : Int)
    rw [if_neg hc.2.2.2.2, if_neg hc.2.1]
    exact digitsValue_of_digits hne h

theorem pyInt_natRepr (n : Nat) : pyInt (natRepr n) = some (n : Int) := by
  rw [pyInt_digits (natRepr_ne_nil n) (natRepr_digits n), natOfDigits_natRepr]

theorem baseIndexCore_suffix (b ds : List Char) (hb : stripChars b = b)
    (hne : ds ≠ []) (hd : ∀ c ∈ ds, c.isDigit = true) :
    baseIndexCore (b ++ '.' :: ds) = (b, natOfDigits ds) := by
  simp only [baseIndexCore]
  have hr : (b ++ '.' :: ds).reverse = ds.reverse ++ '.' :: b.reverse := by
    simp [List.reverse_append]
  rw [hr]
  have htake : (ds.reverse ++ '.' :: b.reverse).takeWhile Char.isDigit = ds.reverse := by
    rw [List.takeWhile_append_of_pos (fun c hc => hd c (List.mem_reverse.mp hc))]
    simp [List.takeWhile_cons]
  rw [htake]
  have hdrop : (ds.reverse ++ '.' :: b.reverse).drop ds.reverse.length = '.' :: b.reverse :=
    List.drop_left ..
  rw [hdrop]
  have hdrop1 : (ds.reverse ++ '.' :: b.reverse).drop (ds.reverse.length + 1) = b.reverse := by
    rw [show ds.reverse ++ '.' :: b.reverse = (ds.reverse ++ ['.']) ++ b.reverse by simp]
    exact List.drop_left' (by simp)
  rw [hdrop1]
  rw [if_pos ⟨by simpa using hne, rfl⟩]
  rw [List.reverse_reverse, List.reverse_reverse, hb]

theorem baseIndexCore_nosuffix (s : List Char) (h : endsWithDotDigitsL s = false) :
    baseIndexCore s = (s, 0) := by
  simp only [baseIndexCore]
  rw [if_neg]
  intro hcond
  rcases hcond with ⟨h1, h2⟩
  simp only [endsWithDotDigitsL] at h
  rw [h1, h2] at h
  simp at h

theorem base_and_index_suffix (b : String) (ds : List Char)
    (hb : pyStrip b = b) (hne : ds ≠ []) (hd : ∀ c ∈ ds, c.isDigit = true) :
    base_and_index ⟨b.data ++ '.' :: ds⟩ = (b, natOfDigits ds) := by
  have hb' : stripChars b.data = b.data := congrArg String.data hb
  have hdot : ∀ c ∈ ('.' :: ds), isPySpace c = false := by
    intro c hc
    rcases List.mem_cons.mp hc with rfl | hc
    · decide
    · exact isDigit_not_pySpace (hd c hc)
  have hstrip : stripChars (b.data ++ '.' :: ds) = b.data ++ '.' :: ds := by
    rw [stripChars_append_right hdot (by simp)]
    rw [dropWhile_eq_self_of_stripChars hb']
  show (⟨(baseIndexCore (stripChars (b.data ++ '.' :: ds))).1⟩,
        (baseIndexCore (stripChars (b.data ++ '.' :: ds))).2) = (b, natOfDigits ds)
  rw [hstrip, baseIndexCore_suffix b.data ds hb' hne hd]

theorem base_and_index_nosuffix (col : String)
    (h : endsWithDotDigits (pyStrip col) = false) :
    base_and_index col = (pyStrip col, 0) := by
  have h' : endsWithDotDigitsL (stripChars col.data) = false := h
  show (⟨(baseIndexCore (stripChars col.data)).1⟩,
        (baseIndexCore (stripChars col.data)).2) = (pyStrip col, 0)
  rw [baseIndexCore_nosuffix _ h']
  rfl

theorem composeLabel_roundtrip_pair (p : String × Nat) (h : goodPairB p = true) :
    base_and_index (composeLabel p) = p := by
  obtain ⟨b, i⟩ := p
  unfold goodPairB at h
  simp only [Bool.and_eq_true, Bool.or_eq_true, beq_iff_eq, bne_iff_ne, ne_eq,
    Bool.not_eq_true'] at h
  obtain ⟨hstrip, hcond⟩ := h
  by_cases hi : i = 0
  · subst hi
    show base_and_index (if (0 : Nat) = 0 then b else _) = (b, 0)
    rw [if_pos rfl]
    rcases hcond with hne | hend
    · exact absurd rfl hne
    · rw [base_and_index_nosuffix b (by rw [hstrip]; exact hend), hstrip]
  · show base_and_index (if i = 0 then b else ⟨b.data ++ '.' :: natRepr i⟩) = (b, i)
    rw [if_neg hi]
    rw [base_and_index_suffix b (natRepr i) hstrip (natRepr_ne_nil i) (natRepr_digits i)]
    rw [natOfDigits_natRepr]

/-- Claim C7 (corrected): composing (base, index) pairs into synthetic
labels and decomposing them again reconstructs the original pairs, provided
each base carries no surrounding whitespace and no base used at index 0
itself ends in a dot-digits suffix (otherwise decomposition strips that
suffix, see the counterexample). -/
theorem compose_decompose_roundtrip (ps : List (String × Nat))
    (h : ps.all goodPairB = true) :
    ps.map (fun p => base_and_index (composeLabel p)) = ps := by
  induction ps with
  | nil => rfl
  | cons p t ih =>
    simp only [List.all_cons, Bool.and_eq_true] at h
    simp [composeLabel_roundtrip_pair p h.1, ih h.2]

/-- Claim C7, counterexample to the original wording: the pair ("A.2", 0)
composes to the label "A.2", which decomposes to ("A", 2), not back to
("A.2", 0). -/
theorem compose_decompose_counterexample :
    composeLabel ("A.2", 0) = "A.2"
      ∧ base_and_index (composeLabel ("A.2", 0)) = ("A", 2)
      ∧ base_and_index (composeLabel ("A.2", 0)) ≠ ("A.2", 0) := by
  decide

/-- Claim C7, witness: the round trip on a concrete pair list mixing a
repeated base and a base containing an inner dot. -/
theorem compose_decompose_roundtrip_witness :
    ([("A", 0), ("A", 1), ("B.x", 12)] : List (String × Nat)).all goodPairB = true
      ∧ ([("A", 0), ("A", 1), ("B.x", 12)] : List (String × Nat)).map
          (fun p => base_and_index (composeLabel p)) = [("A", 0), ("A", 1), ("B.x", 12)] :=
  ⟨by decide, compose_decompose_roundtrip _ (by decide)⟩

theorem mem_insertByIdx {z p : Nat × String} {l : List (Nat × String)} :
    z ∈ insertByIdx p l ↔ z = p ∨ z ∈ l := by
  induction l with
  | nil => simp [insertByIdx]
  | cons q qs ih =>
    unfold insertByIdx
    by_cases h : p.1 ≤ q.1
    · simp [h]
    · simp only [h, if_false, List.mem_cons, ih]
      tauto

theorem insertByIdx_pairwise {p : Nat × String} {l : List (Nat × String)}
    (h : l.Pairwise (fun a b => a.1 ≤ b.1)) :
    (insertByIdx p l).Pairwise (fun a b => a.1 ≤ b.1) := by
  induction l with
  | nil => simp [insertByIdx]
  | cons q qs ih =>
    rcases List.pairwise_cons.mp h with ⟨hq, hqs⟩
    unfold insertByIdx
    by_cases hpq : p.1 ≤ q.1
    · rw [if_pos hpq]
      refine List.pairwise_cons.mpr ⟨?_, h⟩
      intro z hz
      rcases List.mem_cons.mp hz with rfl | hz
      · exact hpq
      · exact le_trans hpq (hq z hz)
    · rw [if_neg hpq]
      refine List.pairwise_cons.mpr ⟨?_, ih hqs⟩
      intro z hz
      rcases mem_insertByIdx.mp hz with rfl | hz
      · omega
      · exact hq z hz

theorem sortByIdx_pairwise (l : List (Nat × String)) :
    (sortByIdx l).Pairwise (fun a b => a.1 ≤ b.1) := by
  induction l with
  | nil => simp [sortByIdx]
  | cons p ps ih => exact insertByIdx_pairwise ih

theorem filter_insertByIdx (p : Nat × String) (l : List (Nat × String)) (k : Nat) :
    (insertByIdx p l).filter (fun q => q.1 == k) =
      if p.1 = k then p :: l.filter (fun q => q.1 == k)
      else l.filter (fun q => q.1 == k) := by
  induction l with
  | nil => by_cases h : p.1 = k <;> simp [insertByIdx, List.filter_cons, h]
  | cons q qs ih =>
    unfold insertByIdx
    by_cases hpq : p.1 ≤ q.1
    · rw [if_pos hpq]
      by_cases hk : p.1 = k <;> simp [List.filter_cons, hk]
    · rw [if_neg hpq]
      by_cases hqk : q.1 = k
      · have hpk : ¬(p.1 = k) := by omega
        simp [List.filter_cons, hqk, hpk, ih]
      · simp [List.filter_cons, hqk, ih]

theorem sortByIdx_filter (l : List (Nat × String)) (k : Nat) :
    (sortByIdx l).filter (fun q => q.1 == k) = l.filter (fun q => q.1 == k) := by
  induction l with
  | nil => rfl
  | cons p ps ih =>
    show (insertByIdx p (sortByIdx ps)).filter _ = _
    rw [filter_insertByIdx]
    by_cases h : p.1 = k
    · rw [if_pos h, ih]
      simp [List.filter_cons, h]
    · rw [if_neg h, ih]
      simp [List.filter_cons, h]

theorem addToGroups_lookup (gs : List (String × List (Nat × String)))
    (b' : String) (p : Nat × String) (b : String) :
    lookupStr (addToGroups gs b' p) b =
      if b = b' then some ((lookupStr gs b).getD [] ++ [p]) else lookupStr gs b := by
  induction gs with
  | nil =>
    by_cases h : b = b'
    · subst h
      simp [addToGroups, lookupStr]
    · have h' : ¬(b' = b) := fun heq => h heq.symm
      simp [addToGroups, lookupStr, h, h']
  | cons g rest ih =>
    obtain ⟨k, l⟩ := g
    by_cases hk : k = b'
    · subst hk
      simp only [addToGroups, if_pos rfl]
      by_cases hb : k = b
      · subst hb
        simp [lookupStr]
      · have hb' : ¬(b = k) := fun heq => hb heq.symm
        simp [lookupStr, hb, hb']
    · simp only [addToGroups, if_neg hk]
      by_cases hb : k = b
      · subst hb
        have hb' : ¬(k = b') := hk
        simp [lookupStr, hb']
      · simp only [lookupStr, if_neg hb]
        rw [ih]

theorem insertionList_cons (c : String) (rest : List String) (b : String) :
    insertionList (c :: rest) b =
      if (base_and_index c).1 = b then
        ((base_and_index c).2, c) :: insertionList rest b
      else insertionList rest b := by
  by_cases h : (base_and_index c).1 = b <;>
    simp [insertionList, List.filterMap_cons, h]

theorem rawGroups_go_lookup (cols : List String)
    (gs : List (String × List (Nat × String))) (m : Nat) (b : String) :
    lookupStr
      (cols.foldl
        (fun s c =>
          let bi := base_and_index c
          (addToGroups s.1 bi.1 (bi.2, c), if bi.2 > s.2 then bi.2 else s.2))
        (gs, m)).1 b =
      match lookupStr gs b with
      | some l => some (l ++ insertionList cols b)
      | none =>
        if (insertionList cols b).isEmpty then none else some (insertionList cols b) := by
  induction cols generalizing gs m with
  | nil =>
    simp only [List.foldl_nil]
    cases lookupStr gs b <;> simp [insertionList]
  | cons c rest ih =>
    simp only [List.foldl_cons]
    rw [ih]
    rw [addToGroups_lookup]
    rw [insertionList_cons]
    by_cases h : (base_and_index c).1 = b
    · rw [if_pos h, if_pos h.symm]
      cases hg : lookupStr gs b with
      | some l => simp
      | none => simp
    · rw [if_neg h, if_neg (fun heq => h heq.symm)]

theorem rawGroups_lookup (cols : List String) (b : String) :
    lookupStr (rawGroups cols).1 b =
      if (insertionList cols b).isEmpty then none else some (insertionList cols b) := by
  unfold rawGroups
  rw [rawGroups_go_lookup]
  rfl

theorem lookupStr_map_sort (gs : List (String × List (Nat × String))) (b : String) :
    lookupStr (gs.map (fun g => (g.1, sortByIdx g.2))) b =
      (lookupStr gs b).map sortByIdx := by
  induction gs with
  | nil => rfl
  | cons g rest ih =>
    simp only [List.map_cons, lookupStr]
    by_cases h : g.1 = b <;> simp [h, ih]

theorem detect_groups_lookup (cols : List String) (b : String) :
    lookupStr (detect_groups cols).1 b =
      if (insertionList cols b).isEmpty then none
      else some (sortByIdx (insertionList cols b)) := by
  unfold detect_groups
  rw [lookupStr_map_sort, rawGroups_lookup]
  by_cases h : (insertionList cols b).isEmpty <;> simp [h]

/-- Claim C6 (corrected): for every list of column labels, each group of the
grouping holds exactly the columns decomposing to its base, sorted by index
ascending; because the sort is stable, columns sharing an index keep the
relative order in which they appeared in the input, but columns whose
indices arrive out of order are reordered by the sort (see the
counterexample), so insertion order is preserved only within equal
indices. -/
theorem detect_groups_sorted_stable (cols : List String) (b : String)
    (l : List (Nat × String))
    (h : lookupStr (detect_groups cols).1 b = some l) :
    List.Chain' (fun p q : Nat × String => p.1 ≤ q.1) l
      ∧ ∀ k : Nat,
          l.filter (fun q => q.1 == k) =
            (insertionList cols b).filter (fun q => q.1 == k) := by
  rw [detect_groups_lookup] at h
  by_cases he : (insertionList cols b).isEmpty
  · rw [if_pos he] at h
    exact absurd h (by simp)
  · rw [if_neg he] at h
    have hl : l = sortByIdx (insertionList cols b) := (Option.some.injEq _ _ ▸ h).symm
    subst hl
    exact ⟨(sortByIdx_pairwise _).chain', fun k => sortByIdx_filter _ k⟩

/-- Claim C6, counterexample to the original wording: with input
["A.2", "A.1"] the columns of base "A" appear in insertion order
[(2, "A.2"), (1, "A.1")], but the grouping returns them sorted by index,
which is not the insertion order. -/
theorem detect_groups_order_counterexample :
    lookupStr (detect_groups ["A.2", "A.1"]).1 "A" = some [(1, "A.1"), (2, "A.2")]
      ∧ insertionList ["A.2", "A.1"] "A" = [(2, "A.2"), (1, "A.1")]
      ∧ ([(1, "A.1"), (2, "A.2")] : List (Nat × String)) ≠ [(2, "A.2"), (1, "A.1")] := by
  decide

/-- Claim C6, witness: the sorted-stable description applied to the concrete
header ["A.2", "A", "A.1"]. -/
theorem detect_groups_sorted_stable_witness :
    lookupStr (detect_groups ["A.2", "A", "A.1"]).1 "A" =
        some [(0, "A"), (1, "A.1"), (2, "A.2")]
      ∧ List.Chain' (fun p q : Nat × String => p.1 ≤ q.1)
          [(0, "A"), (1, "A.1"), (2, "A.2")]
      ∧ ([(0, "A"), (1, "A.1"), (2, "A.2")] : List (Nat × String)).filter
          (fun q => q.1 == 1) =
          (insertionList ["A.2", "A", "A.1"] "A").filter (fun q => q.1 == 1) := by
  refine ⟨by decide, ?_, ?_⟩
  · exact (detect_groups_sorted_stable ["A.2", "A", "A.1"] "A" _ (by decide)).1
  · exact (detect_groups_sorted_stable ["A.2", "A", "A.1"] "A" _ (by decide)).2 1

theorem foldl_specStep_stopped (cols : List String) (st : ScanState)
    (h : st.stopped = true) : cols.foldl specStep st = st := by
  induction cols with
  | nil => rfl
  | cons c rest ih =>
    simp only [List.foldl_cons]
    have hstep : specStep st c = st := by
      unfold specStep
      rw [if_pos h]
    rw [hstep]
    exact ih

theorem extractScan_cons (c : String) (rest : List String)
    (cur : List (String × String)) (acc : List (List (String × String))) :
    extractScan (c :: rest) cur acc =
      (if dqBases.contains (pyStrip (base_and_index c).1) then
        acc ++ (if cur.isEmpty then [] else [cur])
       else if pyStrip (base_and_index c).1 = FILE_SECTION_SEPARATOR then
        extractScan rest [] (acc ++ (if cur.isEmpty then [] else [cur]))
       else if FILE_QUESTION_BASES.contains (pyStrip (base_and_index c).1) then
        extractScan rest (cur ++ [(pyStrip (base_and_index c).1, c)]) acc
       else extractScan rest [] (acc ++ (if cur.isEmpty then [] else [cur]))) := by
  rfl

theorem extractScan_eq_specFold (cols : List String) :
    ∀ (cur : List (String × String)) (acc : List (List (String × String))),
      (cols.foldl specStep ⟨false, cur, acc⟩).closed ++
          (if (cols.foldl specStep ⟨false, cur, acc⟩).current.isEmpty then []
           else [(cols.foldl specStep ⟨false, cur, acc⟩).current])
        = extractScan cols cur acc := by
  induction cols with
  | nil =>
    intro cur acc
    simp [extractScan]
  | cons c rest ih =>
    intro cur acc
    simp only [List.foldl_cons]
    have hstep : specStep ⟨false, cur, acc⟩ c =
        (if dqBases.contains (pyStrip (base_and_index c).1) then
          (⟨true, [], acc ++ (if cur.isEmpty then [] else [cur])⟩ : ScanState)
         else if pyStrip (base_and_index c).1 = FILE_SECTION_SEPARATOR then
          ⟨false, [], acc ++ (if cur.isEmpty then [] else [cur])⟩
         else if FILE_QUESTION_BASES.contains (pyStrip (base_and_index c).1) then
          ⟨false, cur ++ [(pyStrip (base_and_index c).1, c)], acc⟩
         else
          ⟨false, [], acc ++ (if cur.isEmpty then [] else [cur])⟩) := by
      simp [specStep]
    rw [hstep, extractScan_cons]
    by_cases h1 : dqBases.contains (pyStrip (base_and_index c).1)
    · rw [if_pos h1, if_pos h1]
      rw [foldl_specStep_stopped rest _ rfl]
      simp
    · rw [if_neg h1, if_neg h1]
      by_cases h2 : pyStrip (base_and_index c).1 = FILE_SECTION_SEPARATOR
      · rw [if_pos h2, if_pos h2]
        exact ih [] (acc ++ (if cur.isEmpty then [] else [cur]))
      · rw [if_neg h2, if_neg h2]
        by_cases h3 : FILE_QUESTION_BASES.contains (pyStrip (base_and_index c).1)
        · rw [if_pos h3, if_pos h3]
          exact ih (cur ++ [(pyStrip (base_and_index c).1, c)]) acc
        · rw [if_neg h3, if_neg h3]
          exact ih [] (acc ++ (if cur.isEmpty then [] else [cur]))

theorem filterBlock_foldl (row : Row) (block : List (String × String)) :
    ∀ acc : List (String × String),
      block.foldl
        (fun qa p =>
          let val := rowGet row p.2
          if is_empty val = false then qa ++ [(p.1, pyStr val)] else qa) acc
        = acc ++ specBlockItems row block := by
  induction block with
  | nil => intro acc; simp [specBlockItems]
  | cons p t ih =>
    intro acc
    simp only [List.foldl_cons]
    by_cases h : is_empty (rowGet row p.2) = false
    · rw [if_pos h]
      rw [ih]
      simp [specBlockItems, List.filterMap_cons, h]
    · rw [if_neg h]
      rw [ih]
      have h' : is_empty (rowGet row p.2) = true := by
        cases hh : is_empty (rowGet row p.2)
        · exact absurd hh h
        · rfl
      simp [specBlockItems, List.filterMap_cons, h']

theorem filterSections_eq (row : Row) (sections : List (List (String × String))) :
    filterSections row sections =
      (sections.map (specBlockItems row)).filter (fun qa => qa.isEmpty = false) := by
  unfold filterSections
  suffices h : ∀ acc,
      sections.foldl
        (fun fs block =>
          let qa := block.foldl
            (fun qa p =>
              let val := rowGet row p.2
              if is_empty val = false then qa ++ [(p.1, pyStr val)] else qa)
            []
          if qa.isEmpty then fs else fs ++ [qa]) acc
        = acc ++ (sections.map (specBlockItems row)).filter (fun qa => qa.isEmpty = false) by
    simpa using h []
  induction sections with
  | nil => intro acc; simp
  | cons block t ih =>
    intro acc
    simp only [List.foldl_cons]
    rw [filterBlock_foldl row block []]
    simp only [List.nil_append]
    by_cases h : (specBlockItems row block).isEmpty
    · rw [if_pos h]
      rw [ih]
      have hnil : specBlockItems row block = [] := List.isEmpty_iff.mp h
      simp [List.filter_cons, hnil]
    · rw [if_neg h]
      rw [ih]
      have hne : specBlockItems row block ≠ [] := by
        intro hnil
        rw [hnil] at h
        exact h rfl
      simp [List.filter_cons, hne, List.append_assoc]

/-- Claim C2 (confirmed): section extraction walks the row's columns in
order with a block accumulator — trailing data-quality bases close any
non-empty block and stop the scan, the separator closes and continues,
repeatable file bases are appended, any other base closes, and the block
still open after the scan is closed — then pairs with empty values are
dropped, emptied blocks are dropped, and the surviving blocks are listed in
closing order. -/
theorem extract_file_sections_spec (row : Row) :
    extract_file_sections row = extractSectionsSpec row := by
  unfold extract_file_sections extractSectionsSpec
  rw [← extractScan_eq_specFold (rowCols row) [] []]
  rw [filterSections_eq]

theorem foldl_eq_append_filterMap {α β : Type} (step : List β → α → List β)
    (f : α → Option β) (hstep : ∀ acc x, step acc x = acc ++ (f x).toList) :
    ∀ (l : List α) (acc : List β), l.foldl step acc = acc ++ l.filterMap f := by
  intro l
  induction l with
  | nil => intro acc; simp
  | cons x t ih =>
    intro acc
    simp only [List.foldl_cons]
    rw [hstep, ih, List.filterMap_cons]
    cases hf : f x <;> simp [Option.toList, List.append_assoc]

theorem filterMap_some_eq_map {α β : Type} (g : α → β) (l : List α) :
    l.filterMap (fun x => some (g x)) = l.map g := by
  induction l with
  | nil => rfl
  | cons x t ih => simp [List.filterMap_cons, ih]

theorem first_value_for_base_fallback_nonempty (row : Row) (base : String)
    (w : String)
    (h : (if hasCol row base && is_empty (rowGet row base) = false
          then rowGet row base else none) = some w) :
    is_empty (some w) = false := by
  by_cases hc : (hasCol row base && is_empty (rowGet row base) = false) = true
  · rw [if_pos hc] at h
    simp only [Bool.and_eq_true] at hc
    have h3 : is_empty (rowGet row base) = false := of_decide_eq_true hc.2
    rw [h] at h3
    exact h3
  · rw [if_neg hc] at h
    exact absurd h (by simp)

theorem first_value_for_base_nonempty (row : Row)
    (groups : List (String × List (Nat × String))) (base : String) (idx : Nat)
    (v : String) (h : first_value_for_base row groups base idx = some v) :
    is_empty (some v) = false := by
  simp only [first_value_for_base] at h
  cases hg : lookupStr groups base with
  | none =>
    simp only [hg] at h
    exact first_value_for_base_fallback_nonempty row base v h
  | some l =>
    simp only [hg] at h
    cases hf : l.find? (fun p => p.1 == idx) with
    | none =>
      simp only [hf] at h
      exact first_value_for_base_fallback_nonempty row base v h
    | some hit =>
      simp only [hf] at h
      by_cases hv : is_empty (rowGet row hit.2) = false
      · rw [if_pos hv] at h
        rw [h] at hv
        exact hv
      · rw [if_neg hv] at h
        exact first_value_for_base_fallback_nonempty row base v h

theorem dqAnswer_eq_spec (row : Row) (groups : List (String × List (Nat × String)))
    (q : String) :
    (if is_empty (first_value_for_base row groups (pyStrip q)) then
      "No response provided."
     else pyStr (first_value_for_base row groups (pyStrip q)))
      = dqAnswerSpec row groups q := by
  cases hv : first_value_for_base row groups (pyStrip q) with
  | none => simp [dqAnswerSpec, hv, is_empty]
  | some v =>
    have hne := first_value_for_base_nonempty row groups (pyStrip q) 0 v hv
    simp [dqAnswerSpec, hv, hne, pyStr]

/-- Claim C4 (confirmed): the data-quality section holds exactly the fixed
questions in their fixed order, each paired with the resolved first
non-empty value of its base when one exists and the placeholder otherwise,
and every answer in it is non-empty — no pair is dropped. -/
theorem dq_items_spec (row : Row) (groups : List (String × List (Nat × String))) :
    dq_items row groups
        = DATA_QUALITY_QUESTIONS.map (fun q => (q, dqAnswerSpec row groups q))
      ∧ (dq_items row groups).all (fun p => !(is_empty (some p.2))) = true := by
  have h1 : dq_items row groups
      = DATA_QUALITY_QUESTIONS.map (fun q => (q, dqAnswerSpec row groups q)) := by
    unfold dq_items
    rw [foldl_eq_append_filterMap _
      (fun q => some (q, dqAnswerSpec row groups q))
      (fun acc q => by simp [Option.toList, dqAnswer_eq_spec row groups q])]
    rw [filterMap_some_eq_map]
    simp
  refine ⟨h1, ?_⟩
  rw [h1, List.all_eq_true]
  intro p hp
  obtain ⟨q, _, rfl⟩ := List.mem_map.mp hp
  cases hv : first_value_for_base row groups (pyStrip q) with
  | none => simp [dqAnswerSpec, hv]; decide
  | some v =>
    have hne := first_value_for_base_nonempty row groups (pyStrip q) 0 v hv
    simp [dqAnswerSpec, hv, hne]

theorem general_items_step (row : Row) (groups : List (String × List (Nat × String)))
    (acc : List (String × String)) (base : String) :
    (if defaultExclusions.contains base then acc
     else
       match (lookupStr groups base).getD [] with
       | [(_, c0)] =>
         let val := rowGet row c0
         if is_empty val = false then acc ++ [(base, pyStr val)] else acc
       | _ => acc)
      = acc ++ (generalItemSpecFn row groups base).toList := by
  unfold generalItemSpecFn
  by_cases hex : defaultExclusions.contains base
  · rw [if_pos hex, if_pos hex]
    simp [Option.toList]
  · rw [if_neg hex, if_neg hex]
    cases hg : (lookupStr groups base).getD [] with
    | nil => simp [Option.toList]
    | cons x t =>
      obtain ⟨i, c0⟩ := x
      cases t with
      | nil =>
        by_cases hv : is_empty (rowGet row c0) = false
        · simp [hv, Option.toList]
        · simp [hv, Option.toList]
      | cons y t' => simp [Option.toList]

/-- Claim C3 (confirmed): the general items are exactly the pairs
(base, value) over bases in row-column order whose base is not excluded,
whose group has exactly one entry, and whose single column holds a non-empty
value. -/
theorem general_items_spec (row : Row) (groups : List (String × List (Nat × String))) :
    general_items row groups = generalItemsSpec row groups := by
  unfold general_items generalItemsSpec
  rw [foldl_eq_append_filterMap _ (generalItemSpecFn row groups)
    (fun acc base => general_items_step row groups acc base)]
  simp

set_option maxRecDepth 100000 in
/-- Claim C1 (corrected): for the scenario row, the rendered document's
heading — also used as the PDF title — is "Title: Doc A" (the candidate base
is prefixed onto the value), its General section contains exactly the single
pair ("Title", "Doc A") — the bases Question and Answer are skipped because
their groups have two entries each, so neither ("Question", "Q1") nor any
Answer pair appears — there are no metadata items and no file sections, and
the Data Quality section lists every fixed question with the placeholder
answer. -/
theorem build_pdf_for_row_example :
    build_pdf_for_row exampleRowC1 exampleGroupsC1 0 =
      { heading := "Title: Doc A"
        meta := []
        files := []
        general := [("Title", "Doc A")]
        dataQuality :=
          DATA_QUALITY_QUESTIONS.map (fun q => (q, "No response provided.")) } := by
  decide

/-- Claim C1, counterexample to the original wording: the document is not
titled "Doc A" and its General section is not [("Question", "Q1")]. -/
theorem build_pdf_for_row_example_counterexample :
    (build_pdf_for_row exampleRowC1 exampleGroupsC1 0).general ≠ [("Question", "Q1")]
      ∧ (build_pdf_for_row exampleRowC1 exampleGroupsC1 0).heading ≠ "Doc A" := by
  decide

theorem splitChar_ne_nil (sep : Char) (l : List Char) : splitChar sep l ≠ [] := by
  cases l with
  | nil => simp [splitChar]
  | cons c cs =>
    unfold splitChar
    by_cases h : c = sep
    · simp [h]
    · rw [if_neg h]
      cases hs : splitChar sep cs <;> simp

theorem splitChar_cons_eq (sep c : Char) (cs : List Char) :
    splitChar sep (c :: cs) =
      if c = sep then [] :: splitChar sep cs
      else
        match splitChar sep cs with
        | t :: ts => (c :: t) :: ts
        | [] => [[c]] := by
  rfl

theorem splitChar_append (sep : Char) (l₁ l₂ : List Char) :
    splitChar sep (l₁ ++ sep :: l₂) = splitChar sep l₁ ++ splitChar sep l₂ := by
  induction l₁ with
  | nil => simp [splitChar]
  | cons c cs ih =>
    rw [List.cons_append, splitChar_cons_eq, splitChar_cons_eq]
    by_cases h : c = sep
    · rw [if_pos h, if_pos h, ih]
      try rfl
    · rw [if_neg h, if_neg h, ih]
      try rfl
      try
        cases hs : splitChar sep cs with
        | nil => exact absurd hs (splitChar_ne_nil sep cs)
        | cons t ts => rfl

theorem splitChar_no_sep (sep : Char) (l : List Char) (h : ∀ c ∈ l, c ≠ sep) :
    splitChar sep l = [l] := by
  induction l with
  | nil => rfl
  | cons c cs ih =>
    unfold splitChar
    rw [if_neg (h c (by simp))]
    rw [ih (fun c hc => h c (List.mem_cons_of_mem _ hc))]

theorem mem_insSortedDedup {z x : Int} {l : List Int} :
    z ∈ insSortedDedup x l ↔ z = x ∨ z ∈ l := by
  induction l with
  | nil => simp [insSortedDedup]
  | cons y ys ih =>
    unfold insSortedDedup
    by_cases h1 : x < y
    · rw [if_pos h1]
      simp only [List.mem_cons]
      try tauto
    · rw [if_neg h1]
      by_cases h2 : x = y
      · rw [if_pos h2]
        subst h2
        simp only [List.mem_cons]
        try tauto
      · rw [if_neg h2]
        simp only [List.mem_cons, ih]
        try tauto

theorem insSortedDedup_pairwise {x : Int} {l : List Int}
    (h : l.Pairwise (fun a b => a < b)) :
    (insSortedDedup x l).Pairwise (fun a b => a < b) := by
  induction l with
  | nil => simp [insSortedDedup]
  | cons y ys ih =>
    rcases List.pairwise_cons.mp h with ⟨hy, hys⟩
    unfold insSortedDedup
    by_cases h1 : x < y
    · rw [if_pos h1]
      refine List.pairwise_cons.mpr ⟨?_, h⟩
      intro z hz
      rcases List.mem_cons.mp hz with rfl | hz
      · exact h1
      · exact lt_trans h1 (hy z hz)
    · rw [if_neg h1]
      by_cases h2 : x = y
      · rw [if_pos h2]
        exact h
      · rw [if_neg h2]
        refine List.pairwise_cons.mpr ⟨?_, ih hys⟩
        intro z hz
        rcases mem_insSortedDedup.mp hz with rfl | hz
        · omega
        · exact hy z hz

theorem foldl_insSortedDedup_pairwise (l : List Int) :
    ∀ acc : List Int, acc.Pairwise (fun a b => a < b) →
      (l.foldl (fun a x => insSortedDedup x a) acc).Pairwise (fun a b => a < b) := by
  induction l with
  | nil => intro acc h; exact h
  | cons x t ih =>
    intro acc h
    exact ih (insSortedDedup x acc) (insSortedDedup_pairwise h)

theorem sortedDedup_pairwise (l : List Int) :
    (sortedDedup l).Pairwise (fun a b => a < b) :=
  foldl_insSortedDedup_pairwise l [] (by simp)

theorem mem_sortedDedup {z : Int} {l : List Int} :
    z ∈ sortedDedup l ↔ z ∈ l := by
  have go : ∀ (t : List Int) (acc : List Int),
      z ∈ t.foldl (fun a x => insSortedDedup x a) acc ↔ z ∈ acc ∨ z ∈ t := by
    intro t
    induction t with
    | nil => intro acc; simp
    | cons x ts ih =>
      intro acc
      simp only [List.foldl_cons, ih, mem_insSortedDedup, List.mem_cons]
      tauto
  have h := go l []
  simp only [List.not_mem_nil, false_or] at h
  exact h

theorem tokenIndices_bounds (m : Int) (tok : List Char) :
    ∀ z ∈ tokenIndices m tok, 0 ≤ z ∧ z ≤ m := by
  intro z hz
  unfold tokenIndices at hz
  dsimp only [] at hz
  by_cases h1 : (stripChars tok).isEmpty
  · rw [if_pos h1] at hz
    simp at hz
  · rw [if_neg h1] at hz
    by_cases h2 : (stripChars tok).contains '-'
    · rw [if_pos h2] at hz
      cases ha : pyInt ((stripChars tok).takeWhile fun c => decide (c ≠ '-')) with
      | none =>
        rw [ha] at hz
        simp at hz
      | some s =>
        rw [ha] at hz
        cases hb : pyInt (((stripChars tok).dropWhile fun c => decide (c ≠ '-')).drop 1) with
        | none =>
          rw [hb] at hz
          simp at hz
        | some e =>
          rw [hb] at hz
          simp only [List.mem_filter, Bool.and_eq_true, decide_eq_true_eq] at hz
          exact hz.2
    · rw [if_neg h2] at hz
      cases hp : pyInt (stripChars tok) with
      | none =>
        rw [hp] at hz
        simp at hz
      | some i =>
        rw [hp] at hz
        dsimp only [] at hz
        by_cases hc : 0 ≤ i ∧ i ≤ m
        · rw [if_pos hc] at hz
          rcases List.mem_singleton.mp hz with rfl
          exact hc
        · rw [if_neg hc] at hz
          simp at hz

theorem tokenIndices_dash (m : Int) (x y : Nat) :
    tokenIndices m (natRepr x ++ '-' :: natRepr y) =
      (rangeInt (min (x : Int) (y : Int)) (max (x : Int) (y : Int))).filter
        (fun i => decide (0 ≤ i) && decide (i ≤ m)) := by
  have hxd := natRepr_digits x
  have hyd := natRepr_digits y
  have hns : ∀ c ∈ (natRepr x ++ '-' :: natRepr y), isPySpace c = false := by
    intro c hc
    rcases List.mem_append.mp hc with hc | hc
    · exact isDigit_not_pySpace (hxd c hc)
    · rcases List.mem_cons.mp hc with rfl | hc
      · decide
      · exact isDigit_not_pySpace (hyd c hc)
  have hstrip : stripChars (natRepr x ++ '-' :: natRepr y) = natRepr x ++ '-' :: natRepr y :=
    stripChars_eq_self_of_none hns
  have hxnd : ∀ c ∈ natRepr x, (fun c => decide (c ≠ '-')) c = true := by
    intro c hc
    simp [(isDigit_ne_special (hxd c hc)).2.1]
  have htake : (natRepr x ++ '-' :: natRepr y).takeWhile (fun c => decide (c ≠ '-'))
      = natRepr x := by
    rw [List.takeWhile_append_of_pos hxnd]
    simp [List.takeWhile_cons]
  have hdrop : ((natRepr x ++ '-' :: natRepr y).dropWhile (fun c => decide (c ≠ '-'))).drop 1
      = natRepr y := by
    rw [List.dropWhile_append_of_pos hxnd]
    simp [List.dropWhile_cons]
  unfold tokenIndices
  rw [hstrip]
  have hne : (natRepr x ++ '-' :: natRepr y).isEmpty = false := by
    cases hn : natRepr x with
    | nil => exact absurd hn (natRepr_ne_nil x)
    | cons a t => simp [hn]
  rw [if_neg (by simp [hne])]
  rw [if_pos (by
    show (natRepr x ++ '-' :: natRepr y).contains '-' = true
    exact List.elem_iff.mpr (by simp))]
  dsimp only []
  rw [htake, hdrop, pyInt_natRepr, pyInt_natRepr]
  dsimp only []
  by_cases hxy : (x : Int) > (y : Int)
  · rw [if_pos hxy]
    rw [show min (x : Int) (y : Int) = (y : Int) by omega]
    rw [show max (x : Int) (y : Int) = (x : Int) by omega]
  · rw [if_neg hxy]
    rw [show min (x : Int) (y : Int) = (x : Int) by omega]
    rw [show max (x : Int) (y : Int) = (y : Int) by omega]

theorem parseCore_dash_comm (x y : Nat) (m : Int) :
    parseRowRangesCore (natRepr x ++ '-' :: natRepr y) m
      = parseRowRangesCore (natRepr y ++ '-' :: natRepr x) m := by
  unfold parseRowRangesCore
  have hsplit : ∀ (u v : Nat),
      splitChar ',' (natRepr u ++ '-' :: natRepr v) = [natRepr u ++ '-' :: natRepr v] := by
    intro u v
    apply splitChar_no_sep
    intro c hc
    rcases List.mem_append.mp hc with hc | hc
    · exact (isDigit_ne_special (natRepr_digits u c hc)).2.2.1
    · rcases List.mem_cons.mp hc with rfl | hc
      · decide
      · exact (isDigit_ne_special (natRepr_digits v c hc)).2.2.1
  rw [hsplit, hsplit]
  simp only [List.map_cons, List.map_nil, List.flatten_cons, List.flatten_nil,
    List.append_nil]
  rw [tokenIndices_dash, tokenIndices_dash]
  rw [min_comm, max_comm]

theorem tokenIndices_malformed (m : Int) (bad : List Char)
    (h : malformedToken bad = true) : tokenIndices m bad = [] := by
  unfold malformedToken at h
  unfold tokenIndices
  dsimp only [] at h ⊢
  by_cases h1 : (stripChars bad).isEmpty
  · rw [if_pos h1]
  · rw [if_neg h1]
    rw [show (stripChars bad).isEmpty = false from by simpa using h1] at h
    simp only [Bool.false_or] at h
    by_cases h2 : (stripChars bad).contains '-'
    · rw [if_pos h2]
      rw [if_pos h2] at h
      cases ha : pyInt ((stripChars bad).takeWhile fun c => decide (c ≠ '-')) with
      | none => rfl
      | some s =>
        cases hb : pyInt (((stripChars bad).dropWhile fun c => decide (c ≠ '-')).drop 1) with
        | none => rfl
        | some e =>
          rw [ha, hb] at h
          simp at h
    · rw [if_neg h2]
      rw [if_neg h2] at h
      cases hp : pyInt (stripChars bad) with
      | none => rfl
      | some i =>
        rw [hp] at h
        simp at h

theorem parseCore_skip (pre bad post : List Char) (m : Int)
    (hmal : malformedToken bad = true) (hnc : bad.contains ',' = false) :
    parseRowRangesCore (pre ++ ',' :: (bad ++ ',' :: post)) m
      = parseRowRangesCore (pre ++ ',' :: post) m := by
  unfold parseRowRangesCore
  rw [splitChar_append, splitChar_append, splitChar_append]
  have hb : splitChar ',' bad = [bad] := by
    apply splitChar_no_sep
    intro c hc heq
    subst heq
    have h2 : List.elem ',' bad = true := List.elem_iff.mpr hc
    have h3 : List.elem ',' bad = false := hnc
    rw [h2] at h3
    exact Bool.true_eq_false.mp h3
  rw [hb]
  simp only [List.map_append, List.map_cons, List.flatten_append, List.flatten_cons,
    List.flatten_nil, List.append_nil]
  rw [tokenIndices_malformed m bad hmal]
  simp

/-- Claim C8 (confirmed): parsing the row-range expression "0,2,5-7" against
max_index 6 yields exactly [0, 2, 5, 6] (7 is out of bounds and dropped),
and in any expression a malformed comma-separated token contributes nothing
while the remaining tokens are parsed as if it were absent. -/
theorem parse_row_ranges_example_and_skip :
    parse_row_ranges "0,2,5-7" 6 = [0, 2, 5, 6]
      ∧ ∀ (pre bad post : List Char) (m : Int), malformedToken bad = true →
          bad.contains ',' = false →
          parseRowRangesCore (pre ++ ',' :: (bad ++ ',' :: post)) m
            = parseRowRangesCore (pre ++ ',' :: post) m :=
  ⟨by decide, fun pre bad post m hmal hnc => parseCore_skip pre bad post m hmal hnc⟩

/-- Claim C8, witness: dropping the malformed token "5-" from "1,5-,2"
leaves the result of "1,2" unchanged. -/
theorem parse_row_ranges_example_and_skip_witness :
    malformedToken "5-".data = true ∧ ("5-".data).contains ',' = false
      ∧ parseRowRangesCore ("1".data ++ ',' :: ("5-".data ++ ',' :: "2".data)) 6
          = parseRowRangesCore ("1".data ++ ',' :: "2".data) 6 :=
  ⟨by decide, by decide,
    parse_row_ranges_example_and_skip.2 "1".data "5-".data "2".data 6
      (by decide) (by decide)⟩

/-- Claim C10 (confirmed): for every expression and max_index the parse
result is strictly increasing (hence duplicate-free) with every element in
[0, max_index], and a range token with reversed bounds selects the same
indices as the ascending one. -/
theorem parse_row_ranges_props :
    (∀ (expr : String) (m : Int),
        List.Chain' (fun a b : Int => a < b) (parse_row_ranges expr m)
          ∧ (parse_row_ranges expr m).all
              (fun z => decide (0 ≤ z) && decide (z ≤ m)) = true)
    ∧ (∀ (x y : Nat) (m : Int),
        parse_row_ranges ⟨natRepr x ++ '-' :: natRepr y⟩ m
          = parse_row_ranges ⟨natRepr y ++ '-' :: natRepr x⟩ m) := by
  constructor
  · intro expr m
    constructor
    · exact (sortedDedup_pairwise _).chain'
    · rw [List.all_eq_true]
      intro z hz
      have hz' := mem_sortedDedup.mp hz
      rcases List.mem_flatten.mp hz' with ⟨lz, hlz, hzl⟩
      rcases List.mem_map.mp hlz with ⟨tok, _, rfl⟩
      have hb := tokenIndices_bounds m tok z hzl
      simp [hb.1, hb.2]
  · intro x y m
    exact parseCore_dash_comm x y m

theorem collapseWsGo_no_ws (l : List Char) :
    ∀ b : Bool, (∀ c ∈ l, isPySpace c = false) → collapseWsGo b l = l := by
  induction l with
  | nil => intro b _; rfl
  | cons c cs ih =>
    intro b h
    unfold collapseWsGo
    rw [if_neg (by simp [h c (by simp)])]
    rw [ih false (fun c hc => h c (List.mem_cons_of_mem _ hc))]

theorem collapseWs_no_ws (l : List Char) (h : ∀ c ∈ l, isPySpace c = false) :
    collapseWs l = l :=
  collapseWsGo_no_ws l false h

theorem slugAllowed_of_digit {c : Char} (h : c.isDigit = true) :
    slugAllowed c = true := by
  unfold slugAllowed isWordChar
  simp [Char.isAlphanum, h]

theorem slugify_ne_empty (t : String) (n : Nat) : slugify t n ≠ "" := by
  unfold slugify
  dsimp only []
  by_cases h : ((collapseWs ((stripChars t.data).filter slugAllowed)).take n).isEmpty
  · rw [if_pos h]
    intro heq
    exact absurd (congrArg String.data heq) (by decide)
  · rw [if_neg h]
    intro heq
    have : (collapseWs ((stripChars t.data).filter slugAllowed)).take n = [] :=
      congrArg String.data heq
    rw [this] at h
    exact h rfl

/-- Claim C9 (corrected): for a present non-empty title value, the output
name is obtained by stripping it, removing disallowed characters, collapsing
whitespace runs to single underscores and truncating to 80 characters, and
when that normalised result is empty the name falls back to the constant
label "row" — not to a row-identity label; the row-identity label row_i is
used as the input of the normalisation only when no title value is
present. -/
theorem outputName_spec :
    (∀ (i : Nat) (t : String), t ≠ "" →
        outputName i (some t) =
          (if normalizeTitle t = "" then "row" else normalizeTitle t))
    ∧ ∀ i : Nat, outputName i none = normalizeTitle (rowLabel i) := by
  constructor
  · intro i t ht
    unfold outputName
    dsimp only []
    rw [if_neg ht]
    unfold slugify normalizeTitle
    dsimp only []
    by_cases hpe : ((collapseWs ((stripChars t.data).filter slugAllowed)).take 80).isEmpty
    · rw [if_pos hpe]
      have hpnil : (collapseWs ((stripChars t.data).filter slugAllowed)).take 80 = [] :=
        List.isEmpty_iff.mp hpe
      rw [hpnil]
      rw [if_neg (show ("row" : String) ≠ "" by decide)]
      rw [if_pos (show (⟨[]⟩ : String) = "" from rfl)]
    · rw [if_neg hpe]
      have hpne : (collapseWs ((stripChars t.data).filter slugAllowed)).take 80 ≠ [] := by
        intro hnil
        rw [hnil] at hpe
        exact hpe rfl
      have hsne :
          (⟨(collapseWs ((stripChars t.data).filter slugAllowed)).take 80⟩ : String) ≠ "" :=
        fun heq => hpne (congrArg String.data heq)
      rw [if_neg hsne, if_neg hsne]
  · intro i
    unfold outputName
    dsimp only []
    rw [if_neg (slugify_ne_empty _ 80)]
    have hdata : (rowLabel i).data = 'r' :: 'o' :: 'w' :: '_' :: natRepr i := rfl
    have hfacts : ∀ c ∈ (rowLabel i).data,
        isPySpace c = false ∧ slugAllowed c = true := by
      intro c hc
      rw [hdata] at hc
      rcases List.mem_cons.mp hc with rfl | hc
      · exact ⟨by decide, by decide⟩
      rcases List.mem_cons.mp hc with rfl | hc
      · exact ⟨by decide, by decide⟩
      rcases List.mem_cons.mp hc with rfl | hc
      · exact ⟨by decide, by decide⟩
      rcases List.mem_cons.mp hc with rfl | hc
      · exact ⟨by decide, by decide⟩
      exact ⟨isDigit_not_pySpace (natRepr_digits i c hc),
        slugAllowed_of_digit (natRepr_digits i c hc)⟩
    have hid : collapseWs ((stripChars (rowLabel i).data).filter
        slugAllowed) = (rowLabel i).data := by
      rw [stripChars_eq_self_of_none (fun c hc => (hfacts c hc).1)]
      rw [List.filter_eq_self.mpr (fun c hc => (hfacts c hc).2)]
      exact collapseWs_no_ws _ (fun c hc => (hfacts c hc).1)
    unfold slugify normalizeTitle
    dsimp only []
    rw [hid]
    rw [if_neg (by
      rw [hdata]
      simp)]

/-- Claim C9, counterexample to the original wording: the title "!!!"
normalises to the empty string, and the derived output name is the constant
"row" for any row — not a row-identity label such as "row_3". -/
theorem outputName_counterexample :
    normalizeTitle "!!!" = "" ∧ outputName 3 (some "!!!") = "row"
      ∧ outputName 4 (some "???") = "row" ∧ ("row" : String) ≠ "row_3" := by
  decide

/-- Claim C9, witness: the normalisation applied to a concrete title with a
disallowed character and a whitespace run, and the row-identity input used
when no title is present. -/
theorem outputName_spec_witness :
    ("Doc  A!" : String) ≠ "" ∧ outputName 3 (some "Doc  A!") = "Doc_A"
      ∧ outputName 5 none = "row_5" := by
  refine ⟨by decide, ?_, ?_⟩
  · exact (outputName_spec.1 3 "Doc  A!" (by decide)).trans (by decide)
  · exact (outputName_spec.2 5).trans (by decide)

end Survey123
